import Mathlib

/-!
Verification development for the pool-backed audio buffer engine
(`buffer2.rs`, `control.rs`, `node/oscillator.rs`, `node/destination.rs`).

Samples (`f32` in the source) are embedded as rationals, so sample
arithmetic is exact; timestamps (`f64`) are embedded as rationals as well.
A Rust `panic!` / `assert!` / `todo!` is embedded as `Option.none` (or as
`Except.error` when the panic message names a Web-Audio error kind).
Copy-on-write handles are modelled at value level for the buffer
operations (a clone denotes the same sample values), while the reference
counting itself is modelled separately as an explicit pool state machine.
-/

namespace WebAudio

/-- `crate::BUFFER_SIZE`: samples per render quantum. -/
abbrev LEN : ℕ := 128

/-- `buffer2::MAX_CHANNELS`. -/
abbrev MAX_CHANNELS : ℕ := 32

/-- `buffer::ChannelInterpretation`. -/
inductive ChannelInterpretation where
  | Speakers
  | Discrete
deriving DecidableEq, Repr

/-- Value-level view of `buffer2::ChannelData`: the sample array together
with the observable outcome of the `is_silent` pointer check (`silent`
is `true` exactly when the handle points at the distinguished zero
block, in which case all samples are zero by construction of the
operations below). -/
structure ChannelData where
  silent : Bool
  data : Fin LEN → ℚ

/-- The distinguished silence block (`AllocInner.zeroes`), as obtained
from `Alloc::silence` / `ChannelData::silence`. -/
def ChannelData.silenceBlock : ChannelData :=
  ⟨true, fun _ => 0⟩

/-- `ChannelData::is_silent`: O(1) pointer check against the silence block. -/
def ChannelData.is_silent (c : ChannelData) : Bool :=
  c.silent

/-- `ChannelData::add`: if `self` is silent adopt `other`; else if `other`
is silent keep `self`; else accumulate sample-wise (through `make_mut`,
hence the result is no longer the silence pointer). -/
def ChannelData.add (self other : ChannelData) : ChannelData :=
  if self.is_silent then other
  else if other.is_silent then self
  else ⟨false, fun i => self.data i + other.data i⟩

/-- `buffer2::AudioBuffer`: 32 channel handles plus the active channel count. -/
structure AudioBuffer where
  channels : Fin MAX_CHANNELS → ChannelData
  channel_count : ℕ

/-- `AudioBuffer::new`: every slot is a clone of the given channel,
`channel_count` starts at 1. -/
def AudioBuffer.new (channel : ChannelData) : AudioBuffer :=
  ⟨fun _ => channel, 1⟩

/-- `AudioBuffer::number_of_channels`. -/
def AudioBuffer.number_of_channels (b : AudioBuffer) : ℕ :=
  b.channel_count

/-- `AudioBuffer::make_silent`. -/
def AudioBuffer.make_silent (b : AudioBuffer) : AudioBuffer :=
  { b with
    channel_count := 1
    channels := fun i => if i.val = 0 then ChannelData.silenceBlock else b.channels i }

/-- `AudioBuffer::mix`: up/down-mix to the desired number of channels.
`none` models a panic: the `assert!(channels < MAX_CHANNELS)` and the
`todo!()` arm for speaker pairs outside the table.  In the `(1, 6)` arm
the source updates channels 0..=4 but leaves `channel_count` (and
channel 5) untouched; this is mirrored literally. -/
def AudioBuffer.mix (b : AudioBuffer) (channels : ℕ)
    (interp : ChannelInterpretation) : Option AudioBuffer :=
  if ¬ channels < MAX_CHANNELS then none
  else if b.channel_count = channels then some b
  else if interp = ChannelInterpretation.Discrete then
    some { channels := fun i =>
             if b.channel_count ≤ i.val ∧ i.val < channels then ChannelData.silenceBlock
             else b.channels i
           channel_count := channels }
  else
    match b.channel_count, channels with
    | 1, 2 =>
      some { channels := fun i => if i.val = 1 then b.channels 0 else b.channels i
             channel_count := 2 }
    | 1, 4 =>
      some { channels := fun i =>
               if i.val = 1 then b.channels 0
               else if i.val = 2 ∨ i.val = 3 then ChannelData.silenceBlock
               else b.channels i
             channel_count := 4 }
    | 1, 6 =>
      some { channels := fun i =>
               if i.val = 2 then b.channels 0
               else if i.val = 0 ∨ i.val = 1 ∨ i.val = 3 ∨ i.val = 4 then
                 ChannelData.silenceBlock
               else b.channels i
             channel_count := b.channel_count }
    | 2, 1 =>
      some { channels := fun i =>
               if i.val = 0 then
                 ⟨false, fun j => ((b.channels 0).data j + (b.channels 1).data j) / 2⟩
               else b.channels i
             channel_count := 1 }
    | _, _ => none

/-- `AudioBuffer::add`: mix both operands to the larger channel count and
accumulate channel-wise.  The source computes `other_mixed` from
`self.clone()` (buffer2.rs line 296), not from `other`; this is mirrored
literally. -/
def AudioBuffer.add (self other : AudioBuffer)
    (interp : ChannelInterpretation) : Option AudioBuffer :=
  let channels := max self.number_of_channels other.number_of_channels
  match self.mix channels interp with
  | none => none
  | some self_mixed =>
    match self.mix channels interp with
    | none => none
    | some other_mixed =>
      some { self_mixed with
             channels := fun i =>
               if i.val < channels then (self_mixed.channels i).add (other_mixed.channels i)
               else self_mixed.channels i }

/-- `f64::MAX`, exactly: `(2^53 - 1) * 2^971`. -/
def F64_MAX : ℚ := (2 ^ 53 - 1) * 2 ^ 971

/-- `control::Scheduler`: the two scheduling timestamps. -/
structure Scheduler where
  start : ℚ
  stop : ℚ

/-- `Scheduler::new`: both timestamps initialised to `f64::MAX`. -/
def Scheduler.new : Scheduler :=
  ⟨F64_MAX, F64_MAX⟩

/-- `Scheduler::get_start_at`. -/
def Scheduler.get_start_at (s : Scheduler) : ℚ :=
  s.start

/-- `Scheduler::start_at`: stores the value unconditionally (the source
carries a `todo` note about validating, but performs no validation). -/
def Scheduler.start_at (s : Scheduler) (start : ℚ) : Scheduler :=
  { s with start := start }

/-- `Scheduler::get_stop_at`. -/
def Scheduler.get_stop_at (s : Scheduler) : ℚ :=
  s.stop

/-- `Scheduler::stop_at`: stores the value unconditionally. -/
def Scheduler.stop_at (s : Scheduler) (stop : ℚ) : Scheduler :=
  { s with stop := stop }

/-- `oscillator::OscillatorType`. -/
inductive OscillatorType where
  | Sine
  | Square
  | Sawtooth
  | Triangle
  | Custom
deriving DecidableEq, Repr

/-- `OscillatorNode::set_type`, as a function of the node's current type:
`none` models the `assert_ne!` panic on `Custom`; when a periodic wave
has been set (current type `Custom`) the change is ignored. -/
def OscillatorNode.set_type (current : OscillatorType) (t : OscillatorType) :
    Option OscillatorType :=
  if t = OscillatorType.Custom then none
  else if current = OscillatorType.Custom then some current
  else some t

/-- `OscillatorRenderer::process`, scheduling skeleton: start/stop times and
the quantum's time window are rationals, and the waveform computation for
an in-window sample at loop index `i` (frequency, detune, phase and type
lookup) is abstracted as `gen i`.  Returns the 128 output samples and the
keep-alive flag. -/
def oscProcess (start_time stop_time current_time dt : ℚ) (started : Bool)
    (gen : ℕ → ℚ) : (Fin LEN → ℚ) × Bool :=
  let next_block_time := current_time + dt * (LEN : ℚ)
  if start_time ≥ next_block_time then
    (fun _ => 0, true)
  else if stop_time < current_time then
    (fun _ => 0, false)
  else
    let start_time := if started = false ∧ start_time < current_time
      then current_time else start_time
    (fun i =>
       if current_time + dt * (i.val : ℚ) < start_time
          ∨ current_time + dt * (i.val : ℚ) ≥ stop_time then 0
       else gen i.val,
     true)

/-- Web-Audio error kinds named by the destination node's panic messages. -/
inductive ErrorKind where
  | NotSupported
  | IndexSize
deriving DecidableEq, Repr

/-- `AudioDestinationNode::set_channel_count`, as a function of the context's
offline flag and `max_channels_count()`: the two `panic!` calls are modelled
as `Except.error` with the error kind named in the panic message, success
returns the stored count. -/
def AudioDestinationNode.set_channel_count (offline : Bool)
    (max_channels_count : ℕ) (v : ℕ) : Except ErrorKind ℕ :=
  if offline = true ∧ v ≠ max_channels_count then
    Except.error ErrorKind.NotSupported
  else if v > max_channels_count then
    Except.error ErrorKind.IndexSize
  else
    Except.ok v

/-!
Pool state machine (`Alloc` / `AllocInner` / `ChannelData` reference
counting).  Block ids are naturals; id 0 is the distinguished silence
block (`AllocInner.zeroes`, permanently owned by the allocator).  Live
`ChannelData` handles are `(handle id, block id)` pairs; the free list
mirrors the `pool` vector (head = top of the stack).  `mem` gives each
block's samples. -/

/-- State of the allocator together with all live `ChannelData` handles. -/
structure PoolState where
  free : List ℕ
  handles : List (ℕ × ℕ)
  nextBlock : ℕ
  nextHandle : ℕ
  mem : ℕ → Fin LEN → ℚ

/-- The operations a client can perform on the pool:
`Alloc::allocate`, `Alloc::silence`, `Clone for ChannelData`, a sample
mutation through `DerefMut` (adding `v` to every sample, as the
crate's own pool test does), and `Drop for ChannelData`. -/
inductive PoolOp where
  | allocate
  | silence
  | clone (h : ℕ)
  | mutate (h : ℕ) (v : ℚ)
  | drop (h : ℕ)

/-- Block id a handle id refers to (first matching handle). -/
def findBlock : List (ℕ × ℕ) → ℕ → Option ℕ
  | [], _ => none
  | p :: rest, h => if p.1 = h then some p.2 else findBlock rest h

/-- Remove the first handle with the given id. -/
def removeHandle : List (ℕ × ℕ) → ℕ → List (ℕ × ℕ)
  | [], _ => []
  | p :: rest, h => if p.1 = h then rest else p :: removeHandle rest h

/-- Re-point the first handle with the given id at block `b2`
(`self.data = new` inside `make_mut`). -/
def reassignHandle : List (ℕ × ℕ) → ℕ → ℕ → List (ℕ × ℕ)
  | [], _, _ => []
  | p :: rest, h, b2 => if p.1 = h then (p.1, b2) :: rest else p :: reassignHandle rest h b2

/-- Number of live handles that point at block `b`. -/
def blockCount (l : List (ℕ × ℕ)) (b : ℕ) : ℕ :=
  (l.filter (fun p => p.2 = b)).length

/-- `Rc::strong_count` of block `b`: owning references are the live
handles, the free-list entries, and (for the silence block) the
allocator's permanent `zeroes` field. -/
def refcount (s : PoolState) (b : ℕ) : ℕ :=
  blockCount s.handles b + s.free.count b + (if b = 0 then 1 else 0)

/-- The block the next `allocate` call hands out: top of the free list if
non-empty, otherwise a fresh block. -/
def allocBlockOf (s : PoolState) : ℕ :=
  match s.free with
  | b :: _ => b
  | [] => s.nextBlock

/-- One step of the pool state machine.  `allocate` pops the free list or
allocates a fresh zeroed block; `silence` hands out a new handle to
block 0; `clone` adds a handle to the same block; `mutate` is a write
through `DerefMut`/`make_mut` (copy-on-write when the block is shared);
`drop` is `Drop for ChannelData` (push onto the free list exactly when
the dropped handle held the only owning reference).  Operations naming
an unknown handle id leave the state unchanged. -/
def stepPool (s : PoolState) : PoolOp → PoolState
  | PoolOp.allocate =>
    match s.free with
    | b :: rest =>
      { s with free := rest
               handles := (s.nextHandle, b) :: s.handles
               nextHandle := s.nextHandle + 1 }
    | [] =>
      { s with handles := (s.nextHandle, s.nextBlock) :: s.handles
               mem := fun b2 => if b2 = s.nextBlock then (fun _ => 0) else s.mem b2
               nextBlock := s.nextBlock + 1
               nextHandle := s.nextHandle + 1 }
  | PoolOp.silence =>
    { s with handles := (s.nextHandle, 0) :: s.handles
             nextHandle := s.nextHandle + 1 }
  | PoolOp.clone h =>
    match findBlock s.handles h with
    | some b =>
      { s with handles := (s.nextHandle, b) :: s.handles
               nextHandle := s.nextHandle + 1 }
    | none => s
  | PoolOp.mutate h v =>
    match findBlock s.handles h with
    | some b =>
      if refcount s b = 1 then
        { s with mem := fun b2 => if b2 = b then (fun i => s.mem b i + v) else s.mem b2 }
      else
        match s.free with
        | b2 :: rest =>
          { s with free := rest
                   handles := reassignHandle s.handles h b2
                   mem := fun b3 => if b3 = b2 then (fun i => s.mem b i + v) else s.mem b3 }
        | [] =>
          { s with handles := reassignHandle s.handles h s.nextBlock
                   mem := fun b3 => if b3 = s.nextBlock then (fun i => s.mem b i + v)
                                    else s.mem b3
                   nextBlock := s.nextBlock + 1 }
    | none => s
  | PoolOp.drop h =>
    match findBlock s.handles h with
    | some b =>
      if refcount s b = 1 then
        { s with handles := removeHandle s.handles h
                 free := b :: s.free }
      else
        { s with handles := removeHandle s.handles h }
    | none => s

/-- `Alloc::with_capacity n`: free list holds `n` zeroed blocks (ids `1..n`),
no live handles, block 0 is the silence block. -/
def initPool (n : ℕ) : PoolState :=
  { free := (List.range n).map (fun k => k + 1)
    handles := []
    nextBlock := n + 1
    nextHandle := 0
    mem := fun _ _ => 0 }

/-- Run a list of pool operations from `Alloc::with_capacity n`. -/
def runPool (n : ℕ) (ops : List PoolOp) : PoolState :=
  ops.foldl stepPool (initPool n)

/-- Invariant tying the pool state together: the silence block is never on
the free list, free blocks and handle targets are allocated ids, no free
block is aliased by a live handle, and the free list has no duplicates. -/
structure PoolInv (s : PoolState) : Prop where
  silence_not_free : 0 ∉ s.free
  nextBlock_pos : 0 < s.nextBlock
  free_lt : ∀ b ∈ s.free, b < s.nextBlock
  handles_lt : ∀ p ∈ s.handles, p.2 < s.nextBlock
  handles_not_free : ∀ p ∈ s.handles, p.2 ∉ s.free
  free_nodup : s.free.Nodup

/-- The run of the crate's own pool test, shortened: start from an empty
pool, allocate a block, add 1 to every sample, drop the handle.  The
mutated block now sits on the free list. -/
def dirtyPoolState : PoolState :=
  runPool 0 [PoolOp.allocate, PoolOp.mutate 0 1, PoolOp.drop 0]

/-- A non-silence channel with every sample `1`. -/
def onesChannel : ChannelData := ⟨false, fun _ => 1⟩

/-- A non-silence channel with every sample `2`. -/
def twosChannel : ChannelData := ⟨false, fun _ => 2⟩

/-- Mono buffer of ones. -/
def onesBuffer : AudioBuffer := AudioBuffer.new onesChannel

/-- Mono buffer of twos. -/
def twosBuffer : AudioBuffer := AudioBuffer.new twosChannel

/-- A three-channel buffer of ones. -/
def threeChanBuffer : AudioBuffer := ⟨fun _ => onesChannel, 3⟩

/-- `mix(c1) ; mix(c2) ; mix(c1)` with Discrete interpretation. -/
def mixRoundTrip (b : AudioBuffer) (c1 c2 : ℕ) : Option AudioBuffer :=
  ((b.mix c1 ChannelInterpretation.Discrete).bind
      (fun x => x.mix c2 ChannelInterpretation.Discrete)).bind
    (fun y => y.mix c1 ChannelInterpretation.Discrete)

/-- C1: `AudioBuffer::add` is claimed to produce `a + b` sample-wise; the
source mixes `self.clone()` twice (buffer2.rs line 296), so on the mono
buffers of ones and twos the sample at (0, 0) evaluates to `1 + 1 = 2`,
not `1 + 2 = 3`. -/
theorem C1_add_clones_self_twice :
    (onesBuffer.add twosBuffer ChannelInterpretation.Discrete).map
      (fun r => (r.channels ⟨0, by norm_num⟩).data ⟨0, by norm_num⟩) = some 2
    ∧ (2 : ℚ) ≠ 1 + 2 := by
  constructor
  · simp [AudioBuffer.add, AudioBuffer.mix, AudioBuffer.new, onesBuffer, twosBuffer,
          onesChannel, twosChannel, ChannelData.add, ChannelData.is_silent,
          AudioBuffer.number_of_channels, MAX_CHANNELS]
    norm_num
  · norm_num

/-- C2: after `mix(6, Speakers)` on a mono buffer the claim expects channel
count 6 with channels 0, 1, 3, 4, 5 silent; the source's `(1, 6)` arm
never updates `channel_count` (still 1) and never touches channel 5
(still the original non-silent data). -/
theorem C2_mix_1_to_6_wrong_count :
    (onesBuffer.mix 6 ChannelInterpretation.Speakers).map
      (fun r => (r.channel_count, (r.channels ⟨2, by norm_num⟩).data ⟨0, by norm_num⟩,
                 (r.channels ⟨5, by norm_num⟩).is_silent,
                 (r.channels ⟨5, by norm_num⟩).data ⟨0, by norm_num⟩))
      = some (1, 1, false, 1) ∧ (1 : ℕ) ≠ 6 := by
  constructor
  · simp [AudioBuffer.mix, AudioBuffer.new, onesBuffer, onesChannel, MAX_CHANNELS,
          ChannelData.is_silent, ChannelData.silenceBlock]
    decide
  · norm_num

/-- C4: on the unsupported Speakers pair `(3, 2)` the claim expects a fall
back to Discrete; the source's `todo!()` arm panics (`none`), while the
same call under Discrete succeeds. -/
theorem C4_speakers_unsupported_panics :
    (threeChanBuffer.mix 2 ChannelInterpretation.Speakers).isNone = true ∧
    (threeChanBuffer.mix 2 ChannelInterpretation.Discrete).isSome = true := by
  refine ⟨?_, ?_⟩ <;> simp [AudioBuffer.mix, threeChanBuffer, MAX_CHANNELS]

/-- C6: `Scheduler::start_at` is claimed to signal a user error on a second
call or a negative time; the source stores the value unconditionally, so
calling `start_at(-1.0)` followed by `start_at(2.0)` silently leaves the
start time at `2.0` and no error is ever produced (the function has no
error channel at all). -/
theorem C6_start_at_stores_silently :
    ((Scheduler.new.start_at (-1)).start_at 2).get_start_at = 2
    ∧ (-1 : ℚ) < 0 ∧ (Scheduler.new.start_at (-1)).get_start_at = -1 := by
  refine ⟨?_, by norm_num, ?_⟩ <;>
    simp [Scheduler.new, Scheduler.start_at, Scheduler.get_start_at]

/-- C5 counterexample: schedule `stop_at = 0` with `start_at = 1000` still
pending; the quantum starting at time `1` (so strictly after the stop
time, `dt = 1/128`) takes the not-yet-started early return and the
processor returns `true`, not `false` as the claim requires. -/
theorem C5_stop_passed_but_returns_true :
    (0 : ℚ) < 1 ∧ (oscProcess 1000 0 1 (1/128) false (fun _ => 5)).2 = true := by
  refine ⟨by norm_num, ?_⟩
  simp [oscProcess]
  norm_num

/-- C5 amended: every output sample whose timestamp is at or after
`stop_at` is exactly 0; and for a quantum whose start time is strictly
after `stop_at`, provided the scheduled start time falls before the end
of the quantum (the not-yet-started early return is not taken), the
output is silent and the processor returns `false`. -/
theorem C5_stop_semantics (start_time stop_time current_time dt : ℚ)
    (started : Bool) (gen : ℕ → ℚ) :
    (∀ i : Fin LEN, stop_time ≤ current_time + dt * (i.val : ℚ) →
       (oscProcess start_time stop_time current_time dt started gen).1 i = 0)
    ∧ (stop_time < current_time → start_time < current_time + dt * (LEN : ℚ) →
       (∀ i, (oscProcess start_time stop_time current_time dt started gen).1 i = 0)
       ∧ (oscProcess start_time stop_time current_time dt started gen).2 = false) := by
  unfold oscProcess
  dsimp only
  constructor
  · intro i hi
    by_cases h1 : start_time ≥ current_time + dt * (LEN : ℚ)
    · rw [if_pos h1]
    · rw [if_neg h1]
      by_cases h2 : stop_time < current_time
      · rw [if_pos h2]
      · rw [if_neg h2]
        exact if_pos (Or.inr hi)
  · intro hs hb
    rw [if_neg (not_le.mpr hb), if_pos hs]
    exact ⟨fun i => rfl, rfl⟩

/-- C5 witness: started oscillator (`start_at = 0`), `stop_at = 1`, quantum
at time `2` with `dt = 1`: every sample timestamp is past the stop time,
the output is silent and the processor reports itself finished. -/
theorem C5_stop_semantics_witness :
    ((1 : ℚ) ≤ 2 + 1 * ((0 : ℕ) : ℚ) ∧
      (oscProcess 0 1 2 1 true (fun _ => 5)).1 ⟨0, by norm_num⟩ = 0)
    ∧ (oscProcess 0 1 2 1 true (fun _ => 5)).2 = false :=
  ⟨⟨by norm_num,
    (C5_stop_semantics 0 1 2 1 true (fun _ => 5)).1 ⟨0, by norm_num⟩ (by norm_num)⟩,
   ((C5_stop_semantics 0 1 2 1 true (fun _ => 5)).2 (by norm_num) (by norm_num)).2⟩

/-- C7 counterexample: `32` is a channel count the buffer API accepts
(`set_number_of_channels` allows up to `MAX_CHANNELS = 32`), yet
`mix(32, Discrete)` trips `assert!(channels < MAX_CHANNELS)`, so the
round trip `mix(1); mix(32); mix(1)` on a mono buffer panics instead of
being the identity. -/
theorem C7_roundtrip_32_panics :
    (1 : ℕ) ≤ 32 ∧ mixRoundTrip onesBuffer 1 32 = none := by
  refine ⟨by norm_num, ?_⟩
  simp [mixRoundTrip, AudioBuffer.mix, onesBuffer, AudioBuffer.new, MAX_CHANNELS]

/-- C7 amended: for `c1 ≤ c2 < 32`, the Discrete round trip
`mix(c1); mix(c2); mix(c1)` succeeds, restores the channel count to `c1`
and leaves every sample of channels `[0, c1)` unchanged. -/
theorem C7_roundtrip_discrete (b : AudioBuffer) (c1 c2 : ℕ)
    (hc : b.channel_count = c1) (h12 : c1 ≤ c2) (h2 : c2 < MAX_CHANNELS) :
    ∃ r, mixRoundTrip b c1 c2 = some r ∧ r.channel_count = c1 ∧
      ∀ i : Fin MAX_CHANNELS, i.val < c1 → r.channels i = b.channels i := by
  have h1 : c1 < MAX_CHANNELS := lt_of_le_of_lt h12 h2
  have e1 : b.mix c1 ChannelInterpretation.Discrete = some b := by
    unfold AudioBuffer.mix
    rw [if_neg (not_not_intro h1), if_pos hc]
  by_cases heq : c1 = c2
  · subst heq
    exact ⟨b, by simp [mixRoundTrip, e1], hc, fun i _ => rfl⟩
  · have hlt : c1 < c2 := lt_of_le_of_ne h12 heq
    have e2 : b.mix c2 ChannelInterpretation.Discrete
        = some { channels := fun i =>
                   if c1 ≤ i.val ∧ i.val < c2 then ChannelData.silenceBlock
                   else b.channels i
                 channel_count := c2 } := by
      unfold AudioBuffer.mix
      rw [if_neg (not_not_intro h2), if_neg (fun h => heq (hc.symm.trans h)),
          if_pos rfl, hc]
    set bb : AudioBuffer :=
      { channels := fun i =>
          if c1 ≤ i.val ∧ i.val < c2 then ChannelData.silenceBlock
          else b.channels i
        channel_count := c2 } with hbb
    have e3 : bb.mix c1 ChannelInterpretation.Discrete
        = some { channels := fun i =>
                   if c2 ≤ i.val ∧ i.val < c1 then ChannelData.silenceBlock
                   else bb.channels i
                 channel_count := c1 } := by
      unfold AudioBuffer.mix
      rw [if_neg (not_not_intro h1), if_neg (fun h => heq (h.symm)), if_pos rfl]
    refine ⟨{ channels := fun i =>
                if c2 ≤ i.val ∧ i.val < c1 then ChannelData.silenceBlock
                else bb.channels i
              channel_count := c1 },
            by simp [mixRoundTrip, e1, e2, e3], rfl, ?_⟩
    intro i hi
    show (if c2 ≤ i.val ∧ i.val < c1 then ChannelData.silenceBlock
          else bb.channels i) = b.channels i
    rw [if_neg (by omega), hbb]
    show (if c1 ≤ i.val ∧ i.val < c2 then ChannelData.silenceBlock
          else b.channels i) = b.channels i
    rw [if_neg (by omega)]

/-- C7 witness: the Discrete round trip `mix(1); mix(3); mix(1)` on the mono
buffer of ones restores a one-channel buffer with channel 0 intact. -/
theorem C7_roundtrip_discrete_witness :
    ∃ r, mixRoundTrip onesBuffer 1 3 = some r ∧ r.channel_count = 1 ∧
      ∀ i : Fin MAX_CHANNELS, i.val < 1 → r.channels i = onesBuffer.channels i :=
  C7_roundtrip_discrete onesBuffer 1 3 rfl (by norm_num) (by norm_num)

/-- C9: `AudioDestinationNode::set_channel_count` fails with `NotSupported`
on an offline context when `v` differs from the hardware max, fails with
`IndexSize` when `v` exceeds the hardware max, and otherwise stores `v`;
in particular, on an offline context the call with `v` equal to the max
channel count succeeds. -/
theorem C9_set_channel_count_spec (offline : Bool) (maxC v : ℕ) :
    (offline = true → v ≠ maxC →
       AudioDestinationNode.set_channel_count offline maxC v
         = Except.error ErrorKind.NotSupported)
    ∧ (¬(offline = true ∧ v ≠ maxC) → maxC < v →
       AudioDestinationNode.set_channel_count offline maxC v
         = Except.error ErrorKind.IndexSize)
    ∧ (¬(offline = true ∧ v ≠ maxC) → v ≤ maxC →
       AudioDestinationNode.set_channel_count offline maxC v = Except.ok v)
    ∧ (offline = true →
       AudioDestinationNode.set_channel_count offline maxC maxC = Except.ok maxC) := by
  unfold AudioDestinationNode.set_channel_count
  refine ⟨fun h1 h2 => ?_, fun h1 h2 => ?_, fun h1 h2 => ?_, fun h1 => ?_⟩
  · rw [if_pos ⟨h1, h2⟩]
  · rw [if_neg h1, if_pos h2]
  · rw [if_neg h1, if_neg (by omega)]
  · rw [if_neg (by simp), if_neg (by omega)]

/-- C9 witness: offline context with hardware max 2: setting 3 raises
`NotSupported`, setting the max itself succeeds. -/
theorem C9_set_channel_count_witness :
    AudioDestinationNode.set_channel_count true 2 3
      = Except.error ErrorKind.NotSupported
    ∧ AudioDestinationNode.set_channel_count true 2 2 = Except.ok 2 :=
  ⟨(C9_set_channel_count_spec true 2 3).1 rfl (by omega),
   (C9_set_channel_count_spec true 2 2).2.2.2 rfl⟩

/-- C10: once the oscillator type is `Custom`, `set_type` with a standard
waveform passes the `assert_ne!` (no panic) and is ignored: the type
stays `Custom`. -/
theorem C10_set_type_keeps_custom (w : OscillatorType)
    (hw : w = OscillatorType.Sine ∨ w = OscillatorType.Square ∨
          w = OscillatorType.Sawtooth ∨ w = OscillatorType.Triangle) :
    OscillatorNode.set_type OscillatorType.Custom w = some OscillatorType.Custom := by
  rcases hw with h | h | h | h <;> subst h <;> rfl

/-- C10 witness at `Sine`. -/
theorem C10_set_type_keeps_custom_witness :
    OscillatorNode.set_type OscillatorType.Custom OscillatorType.Sine
      = some OscillatorType.Custom :=
  C10_set_type_keeps_custom OscillatorType.Sine (Or.inl rfl)

/-- A successful handle lookup exhibits a matching handle entry. -/
theorem findBlock_mem {l : List (ℕ × ℕ)} {h b : ℕ} (e : findBlock l h = some b) :
    ∃ p, p ∈ l ∧ p.1 = h ∧ p.2 = b := by
  induction l with
  | nil => simp [findBlock] at e
  | cons q rest ih =>
    rw [findBlock] at e
    by_cases hq : q.1 = h
    · rw [if_pos hq] at e
      exact ⟨q, List.mem_cons_self q rest, hq, Option.some.inj e⟩
    · rw [if_neg hq] at e
      obtain ⟨p, hp, h1, h2⟩ := ih e
      exact ⟨p, List.mem_cons_of_mem _ hp, h1, h2⟩

/-- A block referenced by a live handle has at least one handle owner. -/
theorem blockCount_pos {l : List (ℕ × ℕ)} {h b : ℕ} (e : findBlock l h = some b) :
    0 < blockCount l b := by
  obtain ⟨p, hp, _, h2⟩ := findBlock_mem e
  have : p ∈ l.filter (fun q => q.2 = b) := List.mem_filter.mpr ⟨hp, by simp [h2]⟩
  exact List.length_pos_of_mem this

/-- Dropping a handle only removes entries. -/
theorem mem_removeHandle {l : List (ℕ × ℕ)} {h : ℕ} {p : ℕ × ℕ}
    (hp : p ∈ removeHandle l h) : p ∈ l := by
  induction l with
  | nil => simp [removeHandle] at hp
  | cons q rest ih =>
    rw [removeHandle] at hp
    by_cases hq : q.1 = h
    · rw [if_pos hq] at hp
      exact List.mem_cons_of_mem _ hp
    · rw [if_neg hq] at hp
      rcases List.mem_cons.mp hp with h1 | h1
      · exact h1 ▸ List.mem_cons_self q rest
      · exact List.mem_cons_of_mem _ (ih h1)

/-- Removing the found handle decreases its block owner count by one. -/
theorem blockCount_removeHandle {l : List (ℕ × ℕ)} {h b : ℕ}
    (e : findBlock l h = some b) :
    blockCount (removeHandle l h) b + 1 = blockCount l b := by
  induction l with
  | nil => simp [findBlock] at e
  | cons q rest ih =>
    rw [findBlock] at e
    rw [removeHandle]
    by_cases hq : q.1 = h
    · rw [if_pos hq] at e
      rw [if_pos hq]
      have hb : q.2 = b := Option.some.inj e
      unfold blockCount
      simp [List.filter_cons, hb]
    · rw [if_neg hq] at e
      rw [if_neg hq]
      have hrec := ih e
      unfold blockCount at hrec ⊢
      by_cases hqb : q.2 = b
      · simp only [List.filter_cons, hqb, decide_True, if_true, List.length_cons]
        omega
      · simp only [List.filter_cons, hqb, decide_False, Bool.false_eq_true, if_false]
        exact hrec

/-- A block with no handle owners is referenced by no handle entry. -/
theorem not_mem_block_of_count_zero {l : List (ℕ × ℕ)} {b : ℕ}
    (h0 : blockCount l b = 0) : ∀ p ∈ l, p.2 ≠ b := by
  intro p hp hpb
  have hm : p ∈ l.filter (fun q => q.2 = b) := List.mem_filter.mpr ⟨hp, by simp [hpb]⟩
  unfold blockCount at h0
  rw [List.length_eq_zero] at h0
  simp [h0] at hm

/-- After copy-on-write, every handle either existed before or points at
the freshly obtained block. -/
theorem mem_reassignHandle {l : List (ℕ × ℕ)} {h b2 : ℕ} {p : ℕ × ℕ}
    (hp : p ∈ reassignHandle l h b2) : p ∈ l ∨ p.2 = b2 := by
  induction l with
  | nil => simp [reassignHandle] at hp
  | cons q rest ih =>
    rw [reassignHandle] at hp
    by_cases hq : q.1 = h
    · rw [if_pos hq] at hp
      rcases List.mem_cons.mp hp with h1 | h1
      · right; rw [h1]
      · left; exact List.mem_cons_of_mem _ h1
    · rw [if_neg hq] at hp
      rcases List.mem_cons.mp hp with h1 | h1
      · left; exact h1 ▸ List.mem_cons_self q rest
      · rcases ih h1 with h2 | h2
        · left; exact List.mem_cons_of_mem _ h2
        · right; exact h2

/-- When a live handle sees `strong_count == 1`, it is the only handle of
its block, the block is not on the free list, and it is not the silence
block. -/
theorem refcount_one_facts {s : PoolState} {h b : ℕ}
    (e : findBlock s.handles h = some b) (hr : refcount s b = 1) :
    blockCount s.handles b = 1 ∧ s.free.count b = 0 ∧ b ≠ 0 := by
  have hpos := blockCount_pos e
  unfold refcount at hr
  by_cases hb : b = 0
  · rw [if_pos hb] at hr; omega
  · rw [if_neg hb] at hr
    exact ⟨by omega, by omega, hb⟩

/-- Every pool operation preserves the pool invariant. -/
theorem stepPool_inv {s : PoolState} (inv : PoolInv s) (op : PoolOp) :
    PoolInv (stepPool s op) := by
  obtain ⟨i1, i2, i3, i4, i5, i6⟩ := inv
  cases op with
  | allocate =>
    cases hf : s.free with
    | nil =>
      simp only [stepPool, hf]
      refine ⟨?_, ?_, ?_, ?_, ?_, ?_⟩ <;> dsimp only
      · simp
      · omega
      · simp
      · intro p hp
        rcases List.mem_cons.mp hp with h1 | h1
        · rw [h1]; omega
        · have := i4 p h1; omega
      · simp
      · simp
    | cons b rest =>
      simp only [stepPool, hf]
      have hnodup : (b :: rest).Nodup := hf ▸ i6
      refine ⟨?_, ?_, ?_, ?_, ?_, ?_⟩ <;> dsimp only
      · intro h0
        exact i1 (hf ▸ List.mem_cons_of_mem b h0)
      · exact i2
      · intro b2 hb2
        exact i3 b2 (hf ▸ List.mem_cons_of_mem b hb2)
      · intro p hp
        rcases List.mem_cons.mp hp with h1 | h1
        · rw [h1]; exact i3 b (hf ▸ List.mem_cons_self b rest)
        · exact i4 p h1
      · intro p hp
        rcases List.mem_cons.mp hp with h1 | h1
        · rw [h1]; exact (List.nodup_cons.mp hnodup).1
        · intro hmem
          exact i5 p h1 (hf ▸ List.mem_cons_of_mem b hmem)
      · exact (List.nodup_cons.mp hnodup).2
  | silence =>
    simp only [stepPool]
    refine ⟨?_, ?_, ?_, ?_, ?_, ?_⟩ <;> dsimp only
    · exact i1
    · exact i2
    · exact i3
    · intro p hp
      rcases List.mem_cons.mp hp with h1 | h1
      · rw [h1]; exact i2
      · exact i4 p h1
    · intro p hp
      rcases List.mem_cons.mp hp with h1 | h1
      · rw [h1]; exact i1
      · exact i5 p h1
    · exact i6
  | clone h =>
    cases he : findBlock s.handles h with
    | none =>
      simp only [stepPool, he]
      exact ⟨i1, i2, i3, i4, i5, i6⟩
    | some b =>
      simp only [stepPool, he]
      obtain ⟨p0, hp0, _, hp0b⟩ := findBlock_mem he
      refine ⟨?_, ?_, ?_, ?_, ?_, ?_⟩ <;> dsimp only
      · exact i1
      · exact i2
      · exact i3
      · intro p hp
        rcases List.mem_cons.mp hp with h1 | h1
        · rw [h1]; exact hp0b ▸ i4 p0 hp0
        · exact i4 p h1
      · intro p hp
        rcases List.mem_cons.mp hp with h1 | h1
        · rw [h1]; exact hp0b ▸ i5 p0 hp0
        · exact i5 p h1
      · exact i6
  | mutate h v =>
    cases he : findBlock s.handles h with
    | none =>
      simp only [stepPool, he]
      exact ⟨i1, i2, i3, i4, i5, i6⟩
    | some b =>
      by_cases hr : refcount s b = 1
      · simp only [stepPool, he, if_pos hr]
        exact ⟨i1, i2, i3, i4, i5, i6⟩
      · cases hf : s.free with
        | cons b2 rest =>
          simp only [stepPool, he, if_neg hr, hf]
          have hnodup : (b2 :: rest).Nodup := hf ▸ i6
          refine ⟨?_, ?_, ?_, ?_, ?_, ?_⟩ <;> dsimp only
          · intro h0; exact i1 (hf ▸ List.mem_cons_of_mem b2 h0)
          · exact i2
          · intro b3 hb3; exact i3 b3 (hf ▸ List.mem_cons_of_mem b2 hb3)
          · intro p hp
            rcases mem_reassignHandle hp with h1 | h1
            · exact i4 p h1
            · rw [h1]; exact i3 b2 (hf ▸ List.mem_cons_self b2 rest)
          · intro p hp
            rcases mem_reassignHandle hp with h1 | h1
            · intro hmem; exact i5 p h1 (hf ▸ List.mem_cons_of_mem b2 hmem)
            · rw [h1]; exact (List.nodup_cons.mp hnodup).1
          · exact (List.nodup_cons.mp hnodup).2
        | nil =>
          simp only [stepPool, he, if_neg hr, hf]
          refine ⟨?_, ?_, ?_, ?_, ?_, ?_⟩ <;> dsimp only
          · simp
          · omega
          · simp
          · intro p hp
            rcases mem_reassignHandle hp with h1 | h1
            · have := i4 p h1; omega
            · rw [h1]; omega
          · simp
          · simp
  | drop h =>
    cases he : findBlock s.handles h with
    | none =>
      simp only [stepPool, he]
      exact ⟨i1, i2, i3, i4, i5, i6⟩
    | some b =>
      obtain ⟨p0, hp0, _, hp0b⟩ := findBlock_mem he
      by_cases hr : refcount s b = 1
      · obtain ⟨hc1, hc0, hb0⟩ := refcount_one_facts he hr
        have hbnotfree : b ∉ s.free := List.count_eq_zero.mp hc0
        have hremove0 : blockCount (removeHandle s.handles h) b = 0 := by
          have := blockCount_removeHandle he
          omega
        simp only [stepPool, he, if_pos hr]
        refine ⟨?_, ?_, ?_, ?_, ?_, ?_⟩ <;> dsimp only
        · intro h0
          rcases List.mem_cons.mp h0 with h1 | h1
          · exact hb0 h1.symm
          · exact i1 h1
        · exact i2
        · intro b2 hb2
          rcases List.mem_cons.mp hb2 with h1 | h1
          · rw [h1]; exact hp0b ▸ i4 p0 hp0
          · exact i3 b2 h1
        · intro p hp
          exact i4 p (mem_removeHandle hp)
        · intro p hp hmem
          rcases List.mem_cons.mp hmem with h1 | h1
          · exact not_mem_block_of_count_zero hremove0 p hp h1
          · exact i5 p (mem_removeHandle hp) h1
        · exact List.nodup_cons.mpr ⟨hbnotfree, i6⟩
      · simp only [stepPool, he, if_neg hr]
        refine ⟨?_, ?_, ?_, ?_, ?_, ?_⟩ <;> dsimp only
        · exact i1
        · exact i2
        · exact i3
        · intro p hp; exact i4 p (mem_removeHandle hp)
        · intro p hp; exact i5 p (mem_removeHandle hp)
        · exact i6

/-- `Alloc::with_capacity` establishes the pool invariant. -/
theorem initPool_inv (n : ℕ) : PoolInv (initPool n) := by
  refine ⟨?_, ?_, ?_, ?_, ?_, ?_⟩
  · simp [initPool]
  · simp [initPool]
  · intro b hb
    simp [initPool] at hb ⊢
    omega
  · intro p hp
    simp [initPool] at hp
  · intro p hp
    simp [initPool] at hp
  · simp only [initPool]
    exact List.Nodup.map (fun a b h => by omega) (List.nodup_range n)

/-- The pool invariant is preserved along any run of operations. -/
theorem foldl_stepPool_inv (ops : List PoolOp) :
    ∀ s, PoolInv s → PoolInv (ops.foldl stepPool s) := by
  induction ops with
  | nil => exact fun s hs => hs
  | cons op rest ih => exact fun s hs => ih _ (stepPool_inv hs op)

/-- Every reachable pool state satisfies the pool invariant. -/
theorem runPool_inv (n : ℕ) (ops : List PoolOp) : PoolInv (runPool n ops) :=
  foldl_stepPool_inv ops _ (initPool_inv n)

/-- C8: in every reachable pool state, the silence block (id 0) is not on
the free list; dropping a live handle pushes its block onto the free
list if and only if that handle is the last handle owning the block and
the block is not the silence block; and the block that `allocate` hands
out next is never the silence block. -/
theorem C8_silence_never_on_free_list (n : ℕ) (ops : List PoolOp) :
    0 ∉ (runPool n ops).free
    ∧ (∀ h b, findBlock (runPool n ops).handles h = some b →
        ((stepPool (runPool n ops) (PoolOp.drop h)).free = b :: (runPool n ops).free
          ↔ blockCount (runPool n ops).handles b = 1 ∧ b ≠ 0))
    ∧ allocBlockOf (runPool n ops) ≠ 0 := by
  have inv := runPool_inv n ops
  set s := runPool n ops with hs
  refine ⟨inv.silence_not_free, ?_, ?_⟩
  · intro h b e
    constructor
    · intro hpush
      by_cases hr : refcount s b = 1
      · obtain ⟨h1, _, h3⟩ := refcount_one_facts e hr
        exact ⟨h1, h3⟩
      · exfalso
        have : (stepPool s (PoolOp.drop h)).free = s.free := by
          simp only [stepPool, e, if_neg hr]
        rw [this] at hpush
        exact List.cons_ne_self b s.free hpush.symm
    · rintro ⟨h1, h3⟩
      obtain ⟨p0, hp0, _, hp0b⟩ := findBlock_mem e
      have hcount : s.free.count b = 0 :=
        List.count_eq_zero.mpr (hp0b ▸ inv.handles_not_free p0 hp0)
      have hr : refcount s b = 1 := by
        unfold refcount
        rw [if_neg h3]
        omega
      simp only [stepPool, e, if_pos hr]
  · cases hf : s.free with
    | cons b rest =>
      have : b ∈ s.free := hf ▸ List.mem_cons_self b rest
      have hb := inv.silence_not_free
      simp only [allocBlockOf, hf]
      intro h0
      exact hb (h0 ▸ this)
    | nil =>
      simp only [allocBlockOf, hf]
      have := inv.nextBlock_pos
      omega

/-- C3 amended: `allocate` hands out an all-zero fresh block only when the
free list is empty; when the free list is non-empty it pops the top
block and returns it with its previous (possibly non-zero) samples
untouched. -/
theorem C3_allocate_contract (s : PoolState) :
    (s.free = [] →
       ∀ i, (stepPool s PoolOp.allocate).mem (allocBlockOf s) i = 0)
    ∧ (∀ b rest, s.free = b :: rest →
        allocBlockOf s = b
        ∧ (stepPool s PoolOp.allocate).mem b = s.mem b
        ∧ (stepPool s PoolOp.allocate).free = rest
        ∧ findBlock (stepPool s PoolOp.allocate).handles s.nextHandle = some b) := by
  constructor
  · intro hf i
    simp only [stepPool, hf, allocBlockOf]
    simp
  · intro b rest hf
    refine ⟨?_, ?_, ?_, ?_⟩ <;> simp [stepPool, allocBlockOf, hf, findBlock]

/-- C8 witness: start from a pool of capacity 1 and allocate once; the
resulting state has the silence block off the free list, and dropping
the sole handle (id 0, block 1) pushes block 1. -/
theorem C8_silence_never_on_free_list_witness :
    0 ∉ (runPool 1 [PoolOp.allocate]).free
    ∧ ((stepPool (runPool 1 [PoolOp.allocate]) (PoolOp.drop 0)).free
        = 1 :: (runPool 1 [PoolOp.allocate]).free
       ↔ blockCount (runPool 1 [PoolOp.allocate]).handles 1 = 1 ∧ (1 : ℕ) ≠ 0) :=
  ⟨(C8_silence_never_on_free_list 1 [PoolOp.allocate]).1,
   (C8_silence_never_on_free_list 1 [PoolOp.allocate]).2.1 0 1 (by decide)⟩

/-- C3 counterexample: after allocating, adding 1 to every sample and
dropping the handle, the free list holds the dirty block; the next
`allocate` returns that block and its first sample is 1, not 0 as the
claim requires. -/
theorem C3_allocate_returns_dirty_block :
    dirtyPoolState.free = [1]
    ∧ findBlock (stepPool dirtyPoolState PoolOp.allocate).handles
        dirtyPoolState.nextHandle = some 1
    ∧ (stepPool dirtyPoolState PoolOp.allocate).mem 1 ⟨0, by norm_num⟩ = 1
    ∧ (1 : ℚ) ≠ 0 := by
  refine ⟨by decide, by decide, ?_, by norm_num⟩
  norm_num [dirtyPoolState, runPool, stepPool, initPool, findBlock, refcount,
            blockCount, removeHandle, List.foldl, allocBlockOf]

/-- C3 witness: the amended contract applied to the empty pool (fresh
zero block) and to the dirty pool above (pop preserves contents). -/
theorem C3_allocate_contract_witness :
    (∀ i, (stepPool (initPool 0) PoolOp.allocate).mem (allocBlockOf (initPool 0)) i = 0)
    ∧ (allocBlockOf dirtyPoolState = 1
       ∧ (stepPool dirtyPoolState PoolOp.allocate).mem 1 = dirtyPoolState.mem 1
       ∧ (stepPool dirtyPoolState PoolOp.allocate).free = []
       ∧ findBlock (stepPool dirtyPoolState PoolOp.allocate).handles
           dirtyPoolState.nextHandle = some 1) :=
  ⟨(C3_allocate_contract (initPool 0)).1 rfl,
   (C3_allocate_contract dirtyPoolState).2 1 [] (by decide)⟩


end WebAudio
